import Mathlib

/-!
Verification development for the DLsite metadata-lookup plugin
(`__init__.py`, class `DLsiteMetadata`).

The embedding translates the plugin's pure logic into Lean:
  * external capabilities (the HTTP browser, calibre's `fixauthors`
    normalizer, `urllib.parse.quote`, `datetime.strptime`) are fields of a
    context record `Ctx`, since the repository treats them as injected
    collaborators;
  * an HTML document is modelled by the query results the code actually
    reads from it (`Doc` below); note that the lxml XPath expressions
    beginning with `//` select from the whole document, not from the
    element they are invoked on, and the model records that distinction;
  * Python exceptions are modelled with `Except PyErr`; element texts and
    attribute values are modelled as present strings (the claims under
    study do not hinge on `None` texts);
  * machine-level details of CPython strings (`str.strip`, `str.lower`,
    `str.split`, `str.replace`, `string.punctuation`) are reproduced by
    the `py*` helpers over `List Char`; `lower`/`strip` are modelled on
    the ASCII range, which covers every string the claims mention.
-/

namespace DLsite

/-- Python exception classes that the modelled code can raise. -/
inductive PyErr where
  | indexError
  | typeError
  | assertionError
  | valueError
  deriving DecidableEq, Repr

/-! ### Python string semantics over `List Char` -/

/-- Python `str.strip()` restricted to whitespace characters
(the titles and labels in play are ASCII or CJK without exotic spaces). -/
def pyStrip (l : List Char) : List Char :=
  ((l.dropWhile Char.isWhitespace).reverse.dropWhile Char.isWhitespace).reverse

/-- String wrapper for `pyStrip`. -/
def pyStripS (s : String) : String := ⟨pyStrip s.data⟩

/-- Python `str.lower()` on the ASCII range (`Char.toLower` lowers A-Z). -/
def pyLowerS (s : String) : String := ⟨s.data.map Char.toLower⟩

/-- Helper for Python `str.split(sep)` with a one-character separator:
accumulates the current piece (reversed) and emits pieces at separators. -/
def pySplitAux (sep : Char) : List Char → List Char → List (List Char)
  | acc, [] => [acc.reverse]
  | acc, c :: rest =>
    if c = sep then acc.reverse :: pySplitAux sep [] rest
    else pySplitAux sep (c :: acc) rest

/-- Python `s.split(sep)` for a one-character separator
(so `"".split(",") = [""]`, and empty pieces are kept). -/
def pySplitS (sep : Char) (s : String) : List String :=
  (pySplitAux sep [] s.data).map String.mk

/-- The 32 characters of CPython's `string.punctuation`. -/
def punctChars : List Char :=
  "!\"#$%&\x27()*+,-./:;<=>?@[\\]^_\x60\x7b|\x7d~".data

/-- Python `title.translate(str.maketrans("", "", string.punctuation))`:
delete every ASCII punctuation character. -/
def stripPunct (s : String) : String :=
  ⟨s.data.filter (fun c => !(punctChars.contains c))⟩

/-- Fuel-driven core of Python `str.replace`: at each position, if the
pattern starts there, emit the replacement and skip the pattern, otherwise
keep the character.  The fuel is at least the length of the remaining
input, so it never runs out for the calls made below (the code never
passes an empty pattern, so that Python edge case is irrelevant here). -/
def pyReplaceFuel (pat rep : List Char) : Nat → List Char → List Char
  | 0, s => s
  | _ + 1, [] => []
  | fuel + 1, c :: rest =>
    if pat.isPrefixOf (c :: rest) then
      rep ++ pyReplaceFuel pat rep fuel (rest.drop (pat.length - 1))
    else
      c :: pyReplaceFuel pat rep fuel rest

/-- Python `s.replace(pat, rep)` (all occurrences, left to right). -/
def pyReplaceS (pat rep s : String) : String :=
  ⟨pyReplaceFuel pat.data rep.data (s.data.length + 1) s.data⟩

/-- Python `url.rsplit("/", 1)[-1]`: the part after the last `/`
(the whole string when there is no `/`). -/
def pyAfterLastSlash (l : List Char) : List Char :=
  (l.reverse.takeWhile (fun c => c ≠ '/')).reverse

/-- Python `s.split(sep)[0]`: the prefix before the first occurrence of
`sep` (the whole string when `sep` is absent). -/
def pyTakeBefore (sep : Char) (l : List Char) : List Char :=
  l.takeWhile (fun c => c ≠ sep)

/-! ### Static data: `BASE_URL`, `COUNTRIES`, `TRANSLATIONS` -/

/-- `DLsiteMetadata.BASE_URL`. -/
def BASE_URL : String := "https://www.dlsite.com"

/-- The 14 locale tags that key `COUNTRIES` and `TRANSLATIONS`. -/
def localeTags : List String :=
  ["ja_JP", "en_US", "zh_CN", "zh_TW", "ko_KR", "es_ES", "de_DE",
   "fr_FR", "id_ID", "it_IT", "pt_BR", "sv_SE", "th_TH", "vi_VN"]

/-- One locale's row of the `TRANSLATIONS` table: the literal label
strings the plugin looks for in that locale's markup, plus the
`datetime.strptime` pattern. -/
structure Translation where
  Author1 : String
  Publisher : String
  Circle : String
  Label : String
  ReleaseDate : String
  format : String
  Author2 : String
  SeriesName : String
  Event : String
  ComicMarket : String
  Genre : String
  deriving DecidableEq, Repr

/-- The `TRANSLATIONS` dictionary.  In Python a key outside the 14 locale
tags would raise `KeyError`, but the `country` option is restricted to
those 14 choices by the options UI, so the lookup is modelled as a total
function with the Japanese row as the (unreachable) fallback. -/
def TRANSLATIONS : String → Translation
  | "ja_JP" => ⟨"著者", "出版社名", "サークル名", "レーベル", "販売日",
                "%Y年%m月%d日", "作者", "シリーズ名", "イベント", "コミックマーケット", "ジャンル"⟩
  | "en_US" => ⟨"Author", "Publisher", "Circle", "Label", "Release date",
                "%b/%d/%Y", "Author", "Series Name", "Event", "Comic Market ", "Genre"⟩
  | "zh_CN" => ⟨"作者", "出版社名", "社团名", "标签", "贩卖日",
                "%Y年%m月%d日", "作者", "系列名", "活动", "CM（ComicMarket）", "分类"⟩
  | "zh_TW" => ⟨"作者", "出版社名", "社團名", "品牌", "販賣日",
                "%Y年%m月%d日", "作者", "系列名", "活動", "CM（ComicMarket）", "分類"⟩
  | "ko_KR" => ⟨"저자", "출판사명", "서클명", "라벨", "판매일",
                "%Y년 %m월 %d일", "저자", "시리즈명", "이벤트", "코믹마켓 ", "장르"⟩
  | "es_ES" => ⟨"Autor", "Editor", "Círculo", "Etiqueta", "Lanzamiento",
                "%m/%d/%Y", "Autor", "Serie", "Evento", "Mercado de Cómics ", "Género"⟩
  | "de_DE" => ⟨"Autor", "Herausgeber", "Kreis", "Label", "Veröffentlicht",
                "%d/%m/%Y", "Autor", "Serie", "Event", "コミックマーケット", "Genre"⟩
  | "fr_FR" => ⟨"Auteur", "1%", "1%", "Label", "Date de sortie",
                "%d/%m/%Y", "Auteur", "Série", "Événement", "Comic Market ", "Genre"⟩
  | "id_ID" => ⟨"Pengarang", "Nama Penerbit", "Nama Circle", "Label", "Tanggal rilis",
                "%d/%m/%Y", "Penulis", "Nama seri", "Event", "Komiket ", "Genre"⟩
  | "it_IT" => ⟨"autore", ":casa editrice nome", ":Circolo nome", "Etichetta", "Data di rilascio",
                "%d/%m/%Y", "Autore", "Serie", "Evento.", "コミックマーケット", "Genere"⟩
  | "pt_BR" => ⟨"Autor", "Editora pessoa(s)", "Círculo pessoa(s)", "Selo", "Lançamento",
                "%d/%m/%Y", "Autor", "Série", "Evento", "コミックマーケット", "Gênero"⟩
  | "sv_SE" => ⟨"Författare", "Utgivare", "Cirkel", "Label", "Utgivningsdatum",
                "%d/%m/%Y", "Författare", "Serier", "Händelse", "コミックマーケット", "Genre"⟩
  | "th_TH" => ⟨"ผู้เขียน", "สำนักพิมพ์ คน", "เซอร์เคิล คน", "ค่ายเพลง", "วันที่ขาย",
                "%d/%m/%Y", "ผู้เขียน", "ชื่อซีรี่ส์", "อีเวนต์", "コミックマーケット", "ประเภท"⟩
  | "vi_VN" => ⟨"Tác giả", "Nhà xuất bản Tên", "Nhóm Tên", "Nhãn dán", "Ngày phát hành",
                "%d/%m/%Y", "Tác giả", "Bộ truyện", "Sự kiện", "コミックマーケット", "Thể loại"⟩
  | _ => ⟨"著者", "出版社名", "サークル名", "レーベル", "販売日",
          "%Y年%m月%d日", "作者", "シリーズ名", "イベント", "コミックマーケット", "ジャンル"⟩

/-! ### Data model: configuration, documents, metadata records -/

/-- The plugin's recognized configuration options (`self.prefs`), with the
defaults declared in `options`.  The declared default for `country` is the
display string `"日本語"` rather than a locale tag; every theorem below
supplies `country` explicitly. -/
structure Prefs where
  country : String := "日本語"
  num_matches : Nat := 1
  title_blacklist : String := ""
  tag_blacklist : String := ""
  remove_leading_zeroes : Bool := false
  deriving DecidableEq, Repr

/-- One `tr` row of the `work_maker` or `work_outline` table as the code
reads it: the text of its first `th` child (`none` when the row has no
`th`, which makes `x.xpath("th")[0]` raise `IndexError`), and the texts of
its `td/a` anchors. -/
structure Row where
  th : Option String := none
  tdAnchors : List String := []
  deriving DecidableEq, Repr

/-- An HTML document, modelled by the query results the plugin reads.
Fields whose XPath starts with `//` are document-global in lxml even when
queried from a row element; those fields therefore live on the document,
not on `Row`. -/
structure Doc where
  /-- Texts of `//li[@class='topicpath_item'][last()]/a/span`. -/
  breadcrumb : List String := []
  /-- Rows of `//table[@id='work_maker']/tr`. -/
  makerRows : List Row := []
  /-- Rows of `//table[@id='work_outline']/tr`. -/
  outlineRows : List Row := []
  /-- Texts of the document-global `//span/a` anchors. -/
  spanA : List String := []
  /-- Texts of the document-global `//span[@class='icon_EVT']/a` anchors. -/
  iconEvtA : List String := []
  /-- Texts of the document-global `//div[@class='main_genre']/a` anchors. -/
  mainGenreA : List String := []
  /-- Whether `//div[@id='search_result_list']` is non-empty. -/
  searchResultList : Bool := false
  /-- `href` attributes of `//div[@class='multiline_truncate']/a`. -/
  resultLinks : List String := []
  /-- Serialized HTML of the first `//div[@class='work_parts_area']`. -/
  synopsisHtml : Option String := none
  /-- `srcset` attribute of the first `//picture/source/img`. -/
  coverSrcset : Option String := none
  deriving DecidableEq, Repr

/-- The slice of a calibre `Metadata` object that the plugin touches.
Unset optional fields are modelled by their calibre null values
(`authors`/`tags` default to empty lists). -/
structure Metadata where
  title : String := ""
  authors : List String := []
  publisher : Option String := none
  pubdate : Option Nat := none
  series : Option String := none
  tags : List String := []
  comments : Option String := none
  identifiers : List (String × String) := []
  source_relevance : Nat := 0
  isbn : Option String := none
  deriving DecidableEq, Repr

/-- The external capabilities the plugin calls but does not implement:
the HTTP browser plus HTML parser (one fetch returns the parsed document
and whether the final redirected URL contains `/keyword`, or `none` when
the transport or the parser raised), calibre's `fixauthors` name
normalizer, `urllib.parse.quote`, and `datetime.strptime` (returning
`none` when Python would raise `ValueError`; the parsed date is opaque). -/
structure Ctx where
  fetch : String → Option (Doc × Bool)
  fixauthors : List String → List String
  quote : String → String
  strptime : String → String → Option Nat

/-! ### Query builder and URL handling -/

/-- The product-URL template shared by `get_book_url` and `identify`:
`f"{BASE_URL}/books/work/=/product_id/{product_id}?locale={country}"`. -/
def product_url (prefs : Prefs) (product_id : String) : String :=
  BASE_URL ++ "/books/work/=/product_id/" ++ product_id ++ "?locale=" ++ prefs.country

/-- `get_book_url`: returns the `("product_id", id, url)` triple when the
identifiers mapping holds a truthy `dlsite` entry. -/
def get_book_url (prefs : Prefs) (identifiers : List (String × String)) :
    Option (String × String × String) :=
  match List.lookup "dlsite" identifiers with
  | some pid => if pid ≠ "" then some ("product_id", pid, product_url prefs pid) else none
  | none => none

/-- The identifier parse in `_lookup_metadata` line 476:
`url.rsplit("/", 1)[-1].split(".")[0].split("?")[0]`. -/
def parse_product_id (url : String) : String :=
  ⟨pyTakeBefore '?' (pyTakeBefore '.' (pyAfterLastSlash url.data))⟩

/-- `_get_search_url`. -/
def get_search_url (ctx : Ctx) (search_str : String) : String :=
  BASE_URL ++ "/maniax/fsr/=/language/jp/sex_category%5B0%5D/male/keyword/" ++
    ctx.quote search_str

/-- Modelled from the spec: calibre's `Source.get_title_tokens` is not in
this repository; per spec section 4.2, with `strip_joiners=False` and
`strip_subtitle=False` it yields the whitespace-delimited tokens of the
title. -/
def get_title_tokens (title : String) : List String :=
  (title.data.splitOnP Char.isWhitespace).map String.mk |>.filter (fun t => t ≠ "")

/-- `_generate_query`: join the (optionally zero-stripped) title tokens
with single spaces, then append each author. -/
def generate_query (prefs : Prefs) (title : String) (authors : List String) : String :=
  let base := String.intercalate " "
    ((get_title_tokens title).map (fun x =>
      if prefs.remove_leading_zeroes then ⟨x.data.dropWhile (fun c => c = '0')⟩ else x))
  authors.foldl (fun acc a => acc ++ " " ++ a) base

/-! ### Page fetcher and search -/

/-- `_get_webpage`: one browser fetch; any exception is caught and turned
into `(None, False)`.  On success the flag says whether the final
(post-redirect) URL contains `/keyword`. -/
def get_webpage (ctx : Ctx) (url : String) : Option Doc × Bool :=
  match ctx.fetch url with
  | some (tree, is_search) => (some tree, is_search)
  | none => (none, false)

/-- `_get_search_matches`.  When the `search_result_list` div is present
it returns the result hrefs; otherwise control falls off the end of the
Python function, which returns `None` — modelled by `Option`. -/
def get_search_matches (page : Doc) : Option (List String) :=
  if page.searchResultList then some page.resultLinks else none

/-- The `while len(results) < num_matches and i < num_matches` pagination
loop of `_perform_query`, with the loop counter `i` (starting at 1)
replaced by the remaining fuel `num_matches - i`.  Each iteration
re-fetches the same search URL; `assert tree and is_search` raises
`AssertionError` when the re-fetch fails or is not classified as a search
page, and `results.extend(None)` raises `TypeError` when the re-fetched
page lacks the results container. -/
def pq_loop (ctx : Ctx) (prefs : Prefs) (url : String) :
    Nat → List String → Except PyErr (List String)
  | 0, results => .ok results
  | fuel + 1, results =>
    if results.length < prefs.num_matches then
      match get_webpage ctx url with
      | (some tree, true) =>
        match get_search_matches tree with
        | some more => pq_loop ctx prefs url fuel (results ++ more)
        | none => .error .typeError
      | (some _, false) => .error .assertionError
      | (none, _) => .error .assertionError
    else .ok results

/-- Fetch-counting shadow of `pq_loop`: the same control flow, returning
`pq_loop`'s result paired with the number of `_get_webpage` calls the
loop body performed (one per iteration that enters the loop, whether the
iteration then extends the results or raises).
`pq_loop_fetches_agrees` proves the first component equal to `pq_loop`,
so the count is a count of the real loop's fetches. -/
def pq_loop_fetches (ctx : Ctx) (prefs : Prefs) (url : String) :
    Nat → List String → Except PyErr (List String) × Nat
  | 0, results => (.ok results, 0)
  | fuel + 1, results =>
    if results.length < prefs.num_matches then
      match get_webpage ctx url with
      | (some tree, true) =>
        match get_search_matches tree with
        | some more =>
          match pq_loop_fetches ctx prefs url fuel (results ++ more) with
          | (r, k) => (r, k + 1)
        | none => (.error .typeError, 1)
      | (some _, false) => (.error .assertionError, 1)
      | (none, _) => (.error .assertionError, 1)
    else (.ok results, 0)

/-- `_perform_query`: fetch the search URL; a failed fetch yields `[]`; a
non-search classification (single-match redirect) yields the search URL
itself as the sole candidate; otherwise collect result links, paginate,
and cap at `num_matches`.  When `_get_search_matches` returned `None`,
the `len(results)` in the loop condition raises `TypeError`. -/
def perform_query (ctx : Ctx) (prefs : Prefs) (query : String) :
    Except PyErr (List String) :=
  let url := get_search_url ctx query
  match get_webpage ctx url with
  | (none, _) => .ok []
  | (some tree, is_search) =>
    if is_search then
      match get_search_matches tree with
      | none => .error .typeError
      | some results =>
        match pq_loop ctx prefs url (prefs.num_matches - 1) results with
        | .ok rs => .ok (rs.take prefs.num_matches)
        | .error e => .error e
    else .ok [url]

/-! ### Blacklists -/

/-- The comma-split, stripped, lowercased blacklist words of a
configuration string. -/
def blacklist_set (s : String) : List String :=
  (pySplitS ',' s).map (fun x => pyLowerS (pyStripS x))

/-- The words the title is compared against: punctuation deleted,
lowercased, split on single spaces. -/
def title_words (title : String) : List String :=
  pySplitS ' ' (pyLowerS (stripPunct title))

/-- `_check_title_blacklist`: the intersection of the configured title
blacklist with the title's words (`[]` plays the role of Python's
falsy `None`/empty set). -/
def check_title_blacklist (prefs : Prefs) (title : String) : List String :=
  if prefs.title_blacklist = "" then []
  else (blacklist_set prefs.title_blacklist).filter
    (fun w => decide (w ∈ title_words title))

/-- `_check_tag_blacklist`: the intersection of the configured tag
blacklist with the lowercased tags. -/
def check_tag_blacklist (prefs : Prefs) (tags : List String) : List String :=
  if prefs.tag_blacklist = "" then []
  else (blacklist_set prefs.tag_blacklist).filter
    (fun w => decide (w ∈ tags.map pyLowerS))

/-! ### Metadata extraction (`_lookup_metadata`) -/

/-- The trimmed text of a row's label cell, `x.xpath("th")[0].text.strip()`
(`none` when the `th` lookup would raise). -/
def rowLabel (r : Row) : Option String := r.th.map pyStripS

/-- State threaded through the two table scans: the metadata record under
construction and the `tags` accumulator list. -/
abbrev ScanState := Metadata × List String

/-- Run a row-processing step over a table's rows in order, stopping at
the first raised exception. -/
def scanRows (step : ScanState → Row → Except PyErr ScanState) :
    ScanState → List Row → Except PyErr ScanState
  | st, [] => .ok st
  | st, r :: rs =>
    match step st r with
    | .ok st' => scanRows step st' rs
    | .error e => .error e

/-- One row of the `work_maker` table scan (lines 485-499).  The
`Publisher`/`Circle`/`Label` branches read `x.xpath("//span/a")[0]`, which
is document-global, hence `tree.spanA`; an empty result raises
`IndexError`. -/
def maker_step (ctx : Ctx) (tr : Translation) (tree : Doc)
    (st : ScanState) (row : Row) : Except PyErr ScanState :=
  let (m, tags) := st
  match rowLabel row with
  | none => .error .indexError
  | some descriptor =>
    if descriptor = tr.Author1 then
      .ok ({ m with authors := ctx.fixauthors row.tdAnchors }, tags)
    else if descriptor = tr.Publisher then
      match tree.spanA.head? with
      | some v => .ok ({ m with publisher := some v }, tags)
      | none => .error .indexError
    else if descriptor = tr.Circle then
      match tree.spanA.head? with
      | some v => .ok (m, tags ++ ["group." ++ v])
      | none => .error .indexError
    else if descriptor = tr.Label then
      match tree.spanA.head? with
      | some v => .ok (m, tags ++ ["label." ++ v])
      | none => .error .indexError
    else .ok (m, tags)

/-- One row of the `work_outline` table scan (lines 504-527).  The
`Release-date` test is a plain `if` (not `elif`), so it runs before the
`Author2`/`Series-name`/`Event`/`Genre` chain on the same row; `Event`
and `Genre` read document-global elements. -/
def outline_step (ctx : Ctx) (tr : Translation) (tree : Doc)
    (st : ScanState) (row : Row) : Except PyErr ScanState :=
  let (m, tags) := st
  match rowLabel row with
  | none => .error .indexError
  | some descriptor =>
    let afterDate : Except PyErr ScanState :=
      if descriptor = tr.ReleaseDate then
        match row.tdAnchors.head? with
        | none => .error .indexError
        | some s =>
          match ctx.strptime s tr.format with
          | some d => .ok ({ m with pubdate := some d }, tags)
          | none => .error .valueError
      else .ok (m, tags)
    match afterDate with
    | .error e => .error e
    | .ok (m', tags') =>
      if descriptor = tr.Author2 then
        .ok ({ m' with authors := ctx.fixauthors row.tdAnchors }, tags')
      else if descriptor = tr.SeriesName then
        match row.tdAnchors.head? with
        | some s => .ok ({ m' with series := some s }, tags')
        | none => .error .indexError
      else if descriptor = tr.Event then
        match tree.iconEvtA.head? with
        | some e => .ok (m', tags' ++ ["event." ++ pyReplaceS tr.ComicMarket "C" e])
        | none => .error .indexError
      else if descriptor = tr.Genre then
        .ok (m', tags' ++ tree.mainGenreA.map (fun g => "genre." ++ g))
      else .ok (m', tags')

/-- The field-extraction part of `_lookup_metadata` (lines 471-541), given
the already-fetched product-page document: breadcrumb title (required —
`title_elements[0]` raises `IndexError` when absent), identifier parsed
from the URL, the two table scans, comma sanitization of tags, and the
synopsis.  Caching the cover URL is an external side effect that changes
no record field, so it does not appear in the result. -/
def extract (ctx : Ctx) (prefs : Prefs) (url : String) (tree : Doc) :
    Except PyErr Metadata :=
  match tree.breadcrumb.head? with
  | none => .error .indexError
  | some rawTitle =>
    let title := pyStripS rawTitle
    let m0 : Metadata := { title := title, identifiers := [("dlsite", parse_product_id url)] }
    let tr := TRANSLATIONS prefs.country
    match scanRows (maker_step ctx tr tree) (m0, []) tree.makerRows with
    | .error e => .error e
    | .ok st1 =>
      match scanRows (outline_step ctx tr tree) st1 tree.outlineRows with
      | .error e => .error e
      | .ok (m, tags) =>
        let m := if tags ≠ [] then
            { m with tags := tags.map (fun t => pyReplaceS "," " " t) } else m
        let m := match tree.synopsisHtml with
          | some s => { m with comments := some s }
          | none => m
        .ok m

/-- `_lookup_metadata`: fetch the URL (`None` tree or a search-page
classification yields `None`), extract, then apply the two blacklist
gates; a non-empty intersection makes the function return `None`. -/
def lookup_metadata (ctx : Ctx) (prefs : Prefs) (url : String) :
    Except PyErr (Option Metadata) :=
  match get_webpage ctx url with
  | (none, _) => .ok none
  | (some _, true) => .ok none
  | (some tree, false) =>
    match extract ctx prefs url tree with
    | .error e => .error e
    | .ok m =>
      if check_title_blacklist prefs m.title ≠ [] then .ok none
      else if check_tag_blacklist prefs m.tags ≠ [] then .ok none
      else .ok (some m)

/-! ### The `identify` orchestrator -/

/-- Python truthiness of the pair returned by `_get_webpage`: `identify`
line 326 tests `if product_id_urls:` on that 2-tuple, and a non-empty
tuple is truthy in Python even when it is `(None, False)`. -/
def webpage_pair_truthy (_p : Option Doc × Bool) : Bool := true

/-- The record's `dlsite` identifier as read by
`metadata.identifiers["dlsite"]` (always present on records built by
`_lookup_metadata`, so the missing-key `KeyError` path is unreachable). -/
def dlsiteId (m : Metadata) : String :=
  (List.lookup "dlsite" m.identifiers).getD ""

/-- The search-branch candidate URLs of `identify` (lines 329-334). -/
def search_candidates (ctx : Ctx) (prefs : Prefs) (title : String)
    (authors : List String) : Except PyErr (List String) :=
  let query := generate_query prefs title authors
  if query ≠ "" then perform_query ctx prefs query else .ok []

/-- The candidate-URL phase of `identify` (lines 318-334): with a truthy
`dlsite` identifier, fetch the product URL once and test the returned
pair for truthiness (see `webpage_pair_truthy`); otherwise run the text
search. -/
def identify_candidates (ctx : Ctx) (prefs : Prefs) (title : String)
    (authors : List String) (identifiers : List (String × String)) :
    Except PyErr (List String) :=
  match List.lookup "dlsite" identifiers with
  | some pid =>
    if pid ≠ "" then
      let url := product_url prefs pid
      if webpage_pair_truthy (get_webpage ctx url) then .ok [url] else .ok []
    else search_candidates ctx prefs title authors
  | none => search_candidates ctx prefs title authors

/-- The per-candidate loop of `identify` (lines 336-353): an exception
from `_lookup_metadata` is caught and ends the whole loop with nothing
further emitted; a `None` result skips the candidate; a record gets
`source_relevance := index` and, when the candidate list is not a
singleton, `isbn := identifiers["dlsite"]`, and is put on the queue. -/
def emit_loop (ctx : Ctx) (prefs : Prefs) (n : Nat) :
    List String → Nat → List Metadata
  | [], _ => []
  | url :: rest, index =>
    match lookup_metadata ctx prefs url with
    | .error _ => []
    | .ok none => emit_loop ctx prefs n rest (index + 1)
    | .ok (some m) =>
      let m := { m with source_relevance := index }
      let m := if n ≠ 1 then { m with isbn := some (dlsiteId m) } else m
      m :: emit_loop ctx prefs n rest (index + 1)

/-- How a call to `identify` ends: a normal return with the queued
records, or an exception escaping `identify` (with the records queued
before it — always none, since the only uncaught raises happen before the
emit loop). -/
inductive IdentifyResult where
  | ok (records : List Metadata)
  | raised (e : PyErr) (records : List Metadata)
  deriving DecidableEq, Repr

/-- The records a result delivered to the result queue. -/
def IdentifyResult.records : IdentifyResult → List Metadata
  | .ok rs => rs
  | .raised _ rs => rs

/-- `identify`: candidate phase then emit loop.  Exceptions from
`_perform_query` (the `TypeError` on a missing results container, the
pagination `assert`) are not caught anywhere and escape `identify`. -/
def identify (ctx : Ctx) (prefs : Prefs) (title : String)
    (authors : List String) (identifiers : List (String × String)) :
    IdentifyResult :=
  match identify_candidates ctx prefs title authors identifiers with
  | .error e => .raised e []
  | .ok urls => .ok (emit_loop ctx prefs urls.length urls 0)

/-! ### Concrete fixtures used by witnesses and counterexamples -/

/-- Default configuration with the Japanese store selected. -/
def prefsJa : Prefs := { country := "ja_JP" }

/-- Japanese store, `num_matches = 2`. -/
def prefsTwo : Prefs := { country := "ja_JP", num_matches := 2 }

/-- Japanese store, `num_matches = 3`. -/
def prefsThree : Prefs := { country := "ja_JP", num_matches := 3 }

/-- A browser context in which every fetch fails. -/
def ctxAllFail : Ctx :=
  { fetch := fun _ => none, fixauthors := fun l => l,
    quote := fun s => s, strptime := fun _ _ => none }

/-- A search-results page whose HTML lacks the `search_result_list` div. -/
def docNoResultList : Doc := { searchResultList := false }

/-- A context whose every fetch lands on a search page without the
results container. -/
def ctxMissingResultList : Ctx :=
  { fetch := fun _ => some (docNoResultList, true), fixauthors := fun l => l,
    quote := fun s => s, strptime := fun _ _ => none }

/-- A minimal product page titled `T`. -/
def docT : Doc := { breadcrumb := ["T"] }

/-- A minimal product page titled `T1`. -/
def docT1 : Doc := { breadcrumb := ["T1"] }

/-- A minimal product page titled `T2`. -/
def docT2 : Doc := { breadcrumb := ["T2"] }

/-- A search-results page listing the two result links `u1` and `u2`. -/
def searchDoc12 : Doc := { searchResultList := true, resultLinks := ["u1", "u2"] }

/-- A context whose product-page fetches always yield `docT`. -/
def ctxProductT : Ctx :=
  { fetch := fun _ => some (docT, false), fixauthors := fun l => l,
    quote := fun s => s, strptime := fun _ _ => none }

/-- Search finds `u1` and `u2`; fetching `u1` fails at transport level,
fetching `u2` yields the `T2` product page. -/
def ctxFailThenProduct : Ctx :=
  { fetch := fun u =>
      if u = "u1" then none
      else if u = "u2" then some (docT2, false)
      else some (searchDoc12, true),
    fixauthors := fun l => l, quote := fun s => s, strptime := fun _ _ => none }

/-- Search finds `u1` and `u2`; both product fetches succeed. -/
def ctxTwoResults : Ctx :=
  { fetch := fun u =>
      if u = "u1" then some (docT1, false)
      else if u = "u2" then some (docT2, false)
      else some (searchDoc12, true),
    fixauthors := fun l => l, quote := fun s => s, strptime := fun _ _ => none }

/-- A context whose every lookup reaches an empty document, so that
`title_elements[0]` raises `IndexError` during extraction. -/
def ctxRaiseInExtract : Ctx :=
  { fetch := fun _ => some (({} : Doc), false),
    fixauthors := fun l => l, quote := fun s => s, strptime := fun _ _ => none }

/-- The record `identify` emits for `docT` fetched at the `RJ1` product
URL with default configuration. -/
def recordT : Metadata := { title := "T", identifiers := [("dlsite", "RJ1")] }

/-- A Japanese product page with one maker-table author row (label `著者`)
and one outline-table author row (label `作者`). -/
def docTwoAuthors : Doc :=
  { breadcrumb := ["T"],
    makerRows := [({ th := some "著者", tdAnchors := ["A1"] } : Row)],
    outlineRows := [({ th := some "作者", tdAnchors := ["B1", "B2"] } : Row)] }

/-- A context serving `docTwoAuthors` for every URL. -/
def ctxTwoAuthors : Ctx :=
  { fetch := fun _ => some (docTwoAuthors, false), fixauthors := fun l => l,
    quote := fun s => s, strptime := fun _ _ => none }

/-- The record `extract` builds from `docTwoAuthors` at URL `u`: the
outline-table `作者` row overwrote the maker-table `著者` authors. -/
def recordTwoAuthors : Metadata :=
  { title := "T", authors := ["B1", "B2"], identifiers := [("dlsite", "u")] }

/-- A product page whose breadcrumb title is `The Great Omnibus, Vol. 1`. -/
def docOmnibus : Doc := { breadcrumb := ["The Great Omnibus, Vol. 1"] }

/-- A context serving `docOmnibus` for every URL. -/
def ctxOmnibus : Ctx :=
  { fetch := fun _ => some (docOmnibus, false), fixauthors := fun l => l,
    quote := fun s => s, strptime := fun _ _ => none }

/-- Japanese store with `omnibus` on the title blacklist. -/
def prefsOmnibus : Prefs := { country := "ja_JP", title_blacklist := "omnibus" }

/-- The record `extract` builds from `docOmnibus` at URL `u`. -/
def recordOmnibus : Metadata :=
  { title := "The Great Omnibus, Vol. 1", identifiers := [("dlsite", "u")] }

/-- A Japanese product page with maker-table rows labelled Publisher
(`出版社名`), Circle (`サークル名`) and Label (`レーベル`), and one
document-global `span/a` anchor `CX`. -/
def docMakerGlobal : Doc :=
  { breadcrumb := ["T"], spanA := ["CX"],
    makerRows := [({ th := some "出版社名" } : Row),
                  ({ th := some "サークル名" } : Row),
                  ({ th := some "レーベル" } : Row)] }

/-- A context serving `docMakerGlobal` for every URL. -/
def ctxMakerGlobal : Ctx :=
  { fetch := fun _ => some (docMakerGlobal, false), fixauthors := fun l => l,
    quote := fun s => s, strptime := fun _ _ => none }

/-! ## Shared lemmas -/

theorem takeWhile_append_all {p : Char → Bool} {l₁ l₂ : List Char}
    (h : ∀ a ∈ l₁, p a = true) :
    (l₁ ++ l₂).takeWhile p = l₁ ++ l₂.takeWhile p := by
  induction l₁ with
  | nil => simp
  | cons a l ih =>
    have ha : p a = true := h a (by simp)
    simp only [List.cons_append, List.takeWhile_cons, ha]
    simp [ih fun b hb => h b (by simp [hb])]

theorem takeWhile_all {p : Char → Bool} {l : List Char}
    (h : ∀ a ∈ l, p a = true) : l.takeWhile p = l :=
  List.takeWhile_eq_self_iff.mpr h

theorem takeWhile_cons_false {p : Char → Bool} {a : Char} {l : List Char}
    (h : p a = false) : (a :: l).takeWhile p = [] := by
  simp [List.takeWhile_cons, h]

theorem string_mk_data (s : String) : String.mk s.data = s := rfl

theorem string_data_append (s t : String) : (s ++ t).data = s.data ++ t.data := rfl

/-! ## Claim C2 -/

/-- C2: with a `dlsite` identifier supplied and every fetch failing, the
candidate phase of `identify` still keeps the product URL as a candidate:
`if product_id_urls:` tests the always-truthy `(None, False)` tuple
returned by `_get_webpage`, so a failed fetch does not suppress the
candidate (it only leads to a null extraction later, so no record comes
out).  This evaluates the code at the claim's failing input. -/
theorem product_candidate_survives_failed_fetch :
    identify_candidates ctxAllFail prefsJa "t" [] [("dlsite", "RJ123")]
      = .ok [product_url prefsJa "RJ123"] ∧
    (identify ctxAllFail prefsJa "t" [] [("dlsite", "RJ123")]).records = [] :=
  ⟨rfl, rfl⟩

/-! ## Claim C3 -/

/-- C3: `identify` does not always return normally.  When the text search
lands on a search-classified page whose document lacks the
`search_result_list` container, `_get_search_matches` falls off the end
of the function returning `None`, and the `len(results)` in
`_perform_query`'s loop condition raises `TypeError`, which no caller
catches: `identify` raises with nothing on the queue. -/
theorem identify_raises_on_missing_result_container :
    identify ctxMissingResultList prefsJa "book" [] []
      = .raised .typeError [] := rfl

/-! ## Claim C7 -/

theorem roundtrip_aux (prefs : Prefs) (pid : String)
    (hpid : ∀ c ∈ pid.data, c ≠ '/' ∧ c ≠ '.' ∧ c ≠ '?')
    (hloc : ∀ c ∈ prefs.country.data, c ≠ '/' ∧ c ≠ '.' ∧ c ≠ '?') :
    parse_product_id (product_url prefs pid) = pid := by
  have hdata : (product_url prefs pid).data =
      (BASE_URL ++ "/books/work/=/product_id/").data ++
        (pid.data ++ (("?locale=").data ++ prefs.country.data)) := by
    simp [product_url, string_data_append, BASE_URL]
  have hslash : pyAfterLastSlash (product_url prefs pid).data =
      pid.data ++ (("?locale=").data ++ prefs.country.data) := by
    rw [pyAfterLastSlash, hdata]
    simp only [List.reverse_append, List.append_assoc]
    have e1 : List.takeWhile (fun c => c ≠ '/')
        (prefs.country.data.reverse ++ (("?locale=").data.reverse ++
          (pid.data.reverse ++
            (BASE_URL ++ "/books/work/=/product_id/").data.reverse))) =
        prefs.country.data.reverse ++ List.takeWhile (fun c => c ≠ '/')
          (("?locale=").data.reverse ++ (pid.data.reverse ++
            (BASE_URL ++ "/books/work/=/product_id/").data.reverse)) :=
      takeWhile_append_all (by
        intro a ha
        rw [List.mem_reverse] at ha
        simpa using (hloc a ha).1)
    have e2 : List.takeWhile (fun c => c ≠ '/')
        (("?locale=").data.reverse ++ (pid.data.reverse ++
          (BASE_URL ++ "/books/work/=/product_id/").data.reverse)) =
        ("?locale=").data.reverse ++ List.takeWhile (fun c => c ≠ '/')
          (pid.data.reverse ++
            (BASE_URL ++ "/books/work/=/product_id/").data.reverse) :=
      takeWhile_append_all (by decide)
    have e3 : List.takeWhile (fun c => c ≠ '/')
        (pid.data.reverse ++
          (BASE_URL ++ "/books/work/=/product_id/").data.reverse) =
        pid.data.reverse ++ List.takeWhile (fun c => c ≠ '/')
          ((BASE_URL ++ "/books/work/=/product_id/").data.reverse) :=
      takeWhile_append_all (by
        intro a ha
        rw [List.mem_reverse] at ha
        simpa using (hpid a ha).1)
    rw [e1, e2, e3]
    rw [show ((BASE_URL ++ "/books/work/=/product_id/").data.reverse.takeWhile
          (fun c => decide (c ≠ '/'))) = [] from by decide]
    simp
  have hdot : pyTakeBefore '.' (pyAfterLastSlash (product_url prefs pid).data) =
      pid.data ++ (("?locale=").data ++ prefs.country.data) := by
    rw [hslash, pyTakeBefore]
    rw [takeWhile_append_all (by intro a ha; simpa using (hpid a ha).2.1)]
    rw [takeWhile_append_all (by decide)]
    rw [takeWhile_all (by intro a ha; simpa using (hloc a ha).2.1)]
  have hq : pyTakeBefore '?' (pid.data ++ (("?locale=").data ++ prefs.country.data)) =
      pid.data := by
    rw [pyTakeBefore]
    rw [takeWhile_append_all (by intro a ha; simpa using (hpid a ha).2.2)]
    rw [show (("?locale=").data ++ prefs.country.data) =
        '?' :: (("locale=").data ++ prefs.country.data) from rfl]
    rw [takeWhile_cons_false (by decide)]
    simp
  rw [parse_product_id, hdot, hq, string_mk_data]

/-- C7: for every product identifier containing none of `/`, `.`, `?`,
and every locale from the 14-entry set, parsing the identifier back out
of the built product URL (trailing path segment, cut at the first `.`
and the first `?`) recovers exactly the identifier. -/
theorem product_url_roundtrip (pid : String)
    (hpid : ∀ c ∈ pid.data, c ≠ '/' ∧ c ≠ '.' ∧ c ≠ '?')
    (prefs : Prefs) (hloc : prefs.country ∈ localeTags) :
    parse_product_id (product_url prefs pid) = pid := by
  apply roundtrip_aux prefs pid hpid
  have h14 : prefs.country = "ja_JP" ∨ prefs.country = "en_US" ∨
      prefs.country = "zh_CN" ∨ prefs.country = "zh_TW" ∨
      prefs.country = "ko_KR" ∨ prefs.country = "es_ES" ∨
      prefs.country = "de_DE" ∨ prefs.country = "fr_FR" ∨
      prefs.country = "id_ID" ∨ prefs.country = "it_IT" ∨
      prefs.country = "pt_BR" ∨ prefs.country = "sv_SE" ∨
      prefs.country = "th_TH" ∨ prefs.country = "vi_VN" := by
    simpa [localeTags] using hloc
  rcases h14 with h | h | h | h | h | h | h | h | h | h | h | h | h | h
  all_goals rw [h]
  all_goals decide

/-- Witness for C7 at `pid = RJ01017308`, locale `ja_JP`. -/
theorem product_url_roundtrip_witness :
    (∀ c ∈ ("RJ01017308" : String).data, c ≠ '/' ∧ c ≠ '.' ∧ c ≠ '?') ∧
    prefsJa.country ∈ localeTags ∧
    parse_product_id (product_url prefsJa "RJ01017308") = "RJ01017308" :=
  ⟨by decide, by decide,
    product_url_roundtrip "RJ01017308" (by decide) prefsJa (by decide)⟩

/-! ## Claim C1 -/

theorem lookup_ok_some_passes_blacklists {ctx : Ctx} {prefs : Prefs}
    {url : String} {m : Metadata}
    (h : lookup_metadata ctx prefs url = .ok (some m)) :
    check_title_blacklist prefs m.title = [] ∧
    check_tag_blacklist prefs m.tags = [] := by
  unfold lookup_metadata at h
  split at h
  · simp at h
  · simp at h
  · rename_i tree _
    cases hx : extract ctx prefs url tree with
    | error e => rw [hx] at h; simp at h
    | ok mm =>
      rw [hx] at h
      dsimp only at h
      by_cases h1 : check_title_blacklist prefs mm.title ≠ []
      · rw [if_pos h1] at h; simp at h
      · rw [if_neg h1] at h
        by_cases h2 : check_tag_blacklist prefs mm.tags ≠ []
        · rw [if_pos h2] at h; simp at h
        · rw [if_neg h2] at h
          have hmm : mm = m := by simpa using h
          subst hmm
          exact ⟨not_not.mp h1, not_not.mp h2⟩

theorem emit_loop_mem {ctx : Ctx} {prefs : Prefs} {n : Nat} :
    ∀ (urls : List String) (i : Nat) (m : Metadata),
      m ∈ emit_loop ctx prefs n urls i →
      ∃ u m₀, lookup_metadata ctx prefs u = .ok (some m₀) ∧
        m.title = m₀.title ∧ m.tags = m₀.tags := by
  intro urls
  induction urls with
  | nil => intro i m hm; simp [emit_loop] at hm
  | cons u rest ih =>
    intro i m hm
    simp only [emit_loop] at hm
    cases hl : lookup_metadata ctx prefs u with
    | error e => rw [hl] at hm; simp at hm
    | ok o =>
      cases o with
      | none => rw [hl] at hm; exact ih (i + 1) m hm
      | some m₀ =>
        rw [hl] at hm
        simp only [List.mem_cons] at hm
        rcases hm with rfl | hm
        · refine ⟨u, m₀, hl, ?_, ?_⟩ <;> by_cases hn : n ≠ 1 <;> simp [hn]
        · exact ih (i + 1) m hm

/-- C1: every record `identify` puts on the result queue came out of a
`_lookup_metadata` call that returned it, which in turn requires both the
title-blacklist intersection and the tag-blacklist intersection computed
by `_check_title_blacklist`/`_check_tag_blacklist` to be empty; no record
failing either check is ever emitted. -/
theorem identify_emits_only_blacklist_clean (ctx : Ctx) (prefs : Prefs)
    (title : String) (authors : List String)
    (ids : List (String × String)) (m : Metadata)
    (hm : m ∈ (identify ctx prefs title authors ids).records) :
    check_title_blacklist prefs m.title = [] ∧
    check_tag_blacklist prefs m.tags = [] := by
  unfold identify at hm
  cases hc : identify_candidates ctx prefs title authors ids with
  | error e => rw [hc] at hm; simp [IdentifyResult.records] at hm
  | ok urls =>
    rw [hc] at hm
    simp only [IdentifyResult.records] at hm
    obtain ⟨u, m₀, hl, ht, htags⟩ := emit_loop_mem urls 0 m hm
    rw [ht, htags]
    exact lookup_ok_some_passes_blacklists hl

/-- Witness for C1: with an all-default configuration and a product-id
lookup that succeeds, the emitted record passes both blacklist checks. -/
theorem identify_emits_only_blacklist_clean_witness :
    check_title_blacklist prefsJa recordT.title = [] ∧
    check_tag_blacklist prefsJa recordT.tags = [] :=
  identify_emits_only_blacklist_clean ctxProductT prefsJa "t" []
    [("dlsite", "RJ1")] recordT (by decide)

/-! ## Claim C4 -/

/-- Counterexample for C4: a transport failure while fetching candidate
`u1`'s page does not abort `identify` — `_get_webpage` absorbs the
exception and `_lookup_metadata` returns `None`, so the candidate is
skipped and the next candidate `u2` is still extracted and emitted (one
record, rank 1).  The claim's assertion that a transport failure fetching
a candidate's page aborts the whole operation is false. -/
theorem transport_failure_is_skipped_not_fatal :
    (identify ctxFailThenProduct prefsTwo "q" [] []).records.map
      (fun m => (m.title, m.source_relevance)) = [("T2", 1)] := rfl

/-- C4 (amended): inside `identify`'s per-candidate loop, an exception
raised by `_lookup_metadata` (a parse-level failure such as a missing
breadcrumb title) ends the loop at once with nothing further emitted,
while an `Option.none` result — which is what a transport failure
fetching the candidate's page produces, as well as a blacklist rejection —
merely skips that candidate and continues with the rest. -/
theorem extraction_exception_aborts_none_skips (ctx : Ctx) (prefs : Prefs)
    (n : Nat) (u : String) (rest : List String) (i : Nat) :
    ((∃ e, lookup_metadata ctx prefs u = .error e) →
      emit_loop ctx prefs n (u :: rest) i = []) ∧
    (lookup_metadata ctx prefs u = .ok none →
      emit_loop ctx prefs n (u :: rest) i = emit_loop ctx prefs n rest (i + 1)) := by
  constructor
  · rintro ⟨e, he⟩
    simp [emit_loop, he]
  · intro h
    simp [emit_loop, h]

/-- Witness for C4 (amended): a missing breadcrumb title aborts the loop
with nothing emitted; a transport failure on `u1` skips to `u2`. -/
theorem extraction_exception_aborts_none_skips_witness :
    emit_loop ctxRaiseInExtract prefsJa 2 ["u", "v"] 0 = [] ∧
    emit_loop ctxFailThenProduct prefsTwo 2 ["u1", "u2"] 0 =
      emit_loop ctxFailThenProduct prefsTwo 2 ["u2"] 1 :=
  ⟨(extraction_exception_aborts_none_skips ctxRaiseInExtract prefsJa 2 "u" ["v"] 0).1
      ⟨.indexError, rfl⟩,
   (extraction_exception_aborts_none_skips ctxFailThenProduct prefsTwo 2 "u1" ["u2"] 0).2
      rfl⟩

/-! ## Claim C5 -/

/-- Counterexample for C5: with `num_matches = 3` and a search page that
lists the same 2 results on the first fetch and on the one pagination
re-fetch (the loop re-fetches the same URL), the candidate list is
`[u1, u2, u1]` — three candidates, the first duplicated — and `identify`
returns three records with ranks 0, 1 and 2, not two records with ranks
0 and 1. -/
theorem pagination_example_gives_three_records :
    identify_candidates ctxTwoResults prefsThree "q" [] [] = .ok ["u1", "u2", "u1"] ∧
    (identify ctxTwoResults prefsThree "q" [] []).records.map
      (fun m => (m.title, m.source_relevance)) = [("T1", 0), ("T2", 1), ("T1", 2)] :=
  ⟨rfl, rfl⟩

theorem pq_loop_fetches_agrees (ctx : Ctx) (prefs : Prefs) (url : String) :
    ∀ (fuel : Nat) (rs : List String),
      (pq_loop_fetches ctx prefs url fuel rs).1 = pq_loop ctx prefs url fuel rs := by
  intro fuel
  induction fuel with
  | zero => intro rs; rfl
  | succ f ih =>
    intro rs
    simp only [pq_loop_fetches, pq_loop]
    split
    · rcases hw : get_webpage ctx url with ⟨od, b⟩
      cases od with
      | none => rfl
      | some tree =>
        cases b with
        | false => rfl
        | true =>
          cases hm : get_search_matches tree with
          | none => simp [hm]
          | some more =>
            simp only [hm]
            rcases hrec : pq_loop_fetches ctx prefs url f (rs ++ more) with ⟨r, k⟩
            have := ih (rs ++ more)
            rw [hrec] at this
            exact this
    · rfl

theorem pq_loop_fetches_le (ctx : Ctx) (prefs : Prefs) (url : String) :
    ∀ (fuel : Nat) (rs : List String),
      (pq_loop_fetches ctx prefs url fuel rs).2 ≤ fuel := by
  intro fuel
  induction fuel with
  | zero => intro rs; simp [pq_loop_fetches]
  | succ f ih =>
    intro rs
    simp only [pq_loop_fetches]
    split
    · rcases hw : get_webpage ctx url with ⟨od, b⟩
      cases od with
      | none => simp
      | some tree =>
        cases b with
        | false => simp
        | true =>
          cases hm : get_search_matches tree with
          | none => simp [hm]
          | some more =>
            simp only [hm]
            rcases hrec : pq_loop_fetches ctx prefs url f (rs ++ more) with ⟨r, k⟩
            have := ih (rs ++ more)
            rw [hrec] at this
            simpa using Nat.succ_le_succ this
    · simp

/-- C5 (amended): the candidate list `_perform_query` returns is capped
at `num_matches` (for any positive `num_matches`); the pagination loop
performs at most `num_matches - 1` re-fetches of the search URL (so at
most `num_matches` results-page fetches in total, counting the initial
one), as the fetch-counting shadow of the loop — provably equal to the
loop — shows; and in the claim's concrete scenario (`num_matches = 3`,
2 results per fetch, one pagination re-fetch of the same URL) `identify`
returns three records with ranks 0, 1, 2, the first candidate having
been extracted twice. -/
theorem perform_query_capped_at_num_matches :
    (∀ (ctx : Ctx) (prefs : Prefs) (q : String) (l : List String),
        1 ≤ prefs.num_matches → perform_query ctx prefs q = .ok l →
        l.length ≤ prefs.num_matches) ∧
    (∀ (ctx : Ctx) (prefs : Prefs) (url : String) (rs : List String),
        (pq_loop_fetches ctx prefs url (prefs.num_matches - 1) rs).1 =
          pq_loop ctx prefs url (prefs.num_matches - 1) rs ∧
        (pq_loop_fetches ctx prefs url (prefs.num_matches - 1) rs).2 ≤
          prefs.num_matches - 1) ∧
    (identify ctxTwoResults prefsThree "q" [] []).records.map
      (fun m => m.source_relevance) = [0, 1, 2] := by
  refine ⟨?_, ?_, rfl⟩
  case refine_2 =>
    intro ctx prefs url rs
    exact ⟨pq_loop_fetches_agrees ctx prefs url _ rs,
      pq_loop_fetches_le ctx prefs url _ rs⟩
  intro ctx prefs q l h1 hq
  unfold perform_query at hq
  dsimp only at hq
  split at hq
  · have : ([] : List String) = l := by simpa using hq
    simp [← this]
  · rename_i tree is_search
    split at hq
    · split at hq
      · simp at hq
      · split at hq
        · rename_i rs _
          have : rs.take prefs.num_matches = l := by simpa using hq
          rw [← this]
          simp
        · simp at hq
    · have : [get_search_url ctx q] = l := by simpa using hq
      rw [← this]
      simpa using h1

/-- Witness for C5 (amended): the cap and the loop fetch bound applied at
the concrete three-candidate scenario. -/
theorem perform_query_capped_at_num_matches_witness :
    1 ≤ prefsThree.num_matches ∧
    perform_query ctxTwoResults prefsThree "q" = .ok ["u1", "u2", "u1"] ∧
    (["u1", "u2", "u1"] : List String).length ≤ prefsThree.num_matches ∧
    (pq_loop_fetches ctxTwoResults prefsThree "su"
      (prefsThree.num_matches - 1) ["u1", "u2"]).2 ≤ prefsThree.num_matches - 1 :=
  ⟨by decide, rfl,
    perform_query_capped_at_num_matches.1 ctxTwoResults prefsThree "q"
      ["u1", "u2", "u1"] (by decide) rfl,
    (perform_query_capped_at_num_matches.2.1 ctxTwoResults prefsThree "su"
      ["u1", "u2"]).2⟩

/-! ## Claim C6 -/

theorem emit_loop_relevance {ctx : Ctx} {prefs : Prefs} {n : Nat}
    (hn : n ≠ 1) :
    ∀ (urls : List String) (i : Nat),
      List.Pairwise (fun a b => a.source_relevance < b.source_relevance)
        (emit_loop ctx prefs n urls i) ∧
      ∀ m ∈ emit_loop ctx prefs n urls i,
        i ≤ m.source_relevance ∧
        ∃ u m₀, urls[m.source_relevance - i]? = some u ∧
          lookup_metadata ctx prefs u = .ok (some m₀) ∧
          m.title = m₀.title ∧ m.identifiers = m₀.identifiers ∧
          m.isbn = some (dlsiteId m₀) := by
  intro urls
  induction urls with
  | nil =>
    intro i
    exact ⟨by simp [emit_loop], by simp [emit_loop]⟩
  | cons u rest ih =>
    intro i
    cases hl : lookup_metadata ctx prefs u with
    | error e =>
      simp only [emit_loop, hl]
      exact ⟨by simp, by simp⟩
    | ok o =>
      cases o with
      | none =>
        simp only [emit_loop, hl]
        obtain ⟨hpw, hmem⟩ := ih (i + 1)
        refine ⟨hpw, ?_⟩
        intro m hm
        obtain ⟨hle, u', m₀, hget, hrest⟩ := hmem m hm
        refine ⟨by omega, u', m₀, ?_, hrest⟩
        have hk : m.source_relevance - i = (m.source_relevance - (i + 1)) + 1 := by
          omega
        rw [hk]
        simpa using hget
      | some m₀ =>
        simp only [emit_loop, hl]
        rw [if_pos hn]
        obtain ⟨hpw, hmem⟩ := ih (i + 1)
        constructor
        · refine List.Pairwise.cons ?_ hpw
          intro b hb
          have hble := (hmem b hb).1
          show i < b.source_relevance
          omega
        · intro m hm
          rcases List.mem_cons.mp hm with rfl | hm
          · exact ⟨le_refl i, u, m₀, by simp, hl, rfl, rfl, rfl⟩
          · obtain ⟨hle, u', m₁, hget, hrest⟩ := hmem m hm
            refine ⟨by omega, u', m₁, ?_, hrest⟩
            have hk : m.source_relevance - i = (m.source_relevance - (i + 1)) + 1 := by
              omega
            rw [hk]
            simpa using hget

/-- C6: whenever `identify` produced more than one candidate URL, every
emitted record's `source_relevance` is the 0-based position in the
candidate list of the URL it was extracted from, the relevances of
successively emitted records are strictly increasing, and every emitted
record's `isbn` field is set to its `dlsite` store identifier. -/
theorem multi_candidate_ranks_and_isbn (ctx : Ctx) (prefs : Prefs)
    (title : String) (authors : List String) (ids : List (String × String))
    (urls : List String)
    (hc : identify_candidates ctx prefs title authors ids = .ok urls)
    (h2 : 1 < urls.length) :
    List.Pairwise (fun a b => a.source_relevance < b.source_relevance)
      ((identify ctx prefs title authors ids).records) ∧
    ∀ m ∈ (identify ctx prefs title authors ids).records,
      ∃ u m₀, urls[m.source_relevance]? = some u ∧
        lookup_metadata ctx prefs u = .ok (some m₀) ∧
        m.title = m₀.title ∧ m.identifiers = m₀.identifiers ∧
        m.isbn = some (dlsiteId m₀) := by
  have hn : urls.length ≠ 1 := by omega
  have hrec : (identify ctx prefs title authors ids).records
      = emit_loop ctx prefs urls.length urls 0 := by
    unfold identify
    rw [hc]
    rfl
  rw [hrec]
  obtain ⟨hpw, hmem⟩ := emit_loop_relevance hn urls 0
  refine ⟨hpw, ?_⟩
  intro m hm
  obtain ⟨_, u, m₀, hget, hrest⟩ := hmem m hm
  exact ⟨u, m₀, by simpa using hget, hrest⟩

/-- Witness for C6 at the concrete two-candidate search flow. -/
theorem multi_candidate_ranks_and_isbn_witness :
    identify_candidates ctxTwoResults prefsTwo "q" [] [] = .ok ["u1", "u2"] ∧
    (List.Pairwise (fun a b => a.source_relevance < b.source_relevance)
      ((identify ctxTwoResults prefsTwo "q" [] []).records) ∧
    ∀ m ∈ (identify ctxTwoResults prefsTwo "q" [] []).records,
      ∃ u m₀, (["u1", "u2"] : List String)[m.source_relevance]? = some u ∧
        lookup_metadata ctxTwoResults prefsTwo u = .ok (some m₀) ∧
        m.title = m₀.title ∧ m.identifiers = m₀.identifiers ∧
        m.isbn = some (dlsiteId m₀)) :=
  ⟨rfl, multi_candidate_ranks_and_isbn ctxTwoResults prefsTwo "q" [] []
    ["u1", "u2"] rfl (by decide)⟩

/-! ## Claim C9 -/

/-- C9: whenever extraction completed and the extracted title contains a
configured blacklisted word — membership being tested on the
punctuation-stripped, lowercased, space-split title words, so letter case
and attached punctuation cannot protect the word — `_lookup_metadata`
returns `None` for that candidate. -/
theorem blacklisted_title_rejected (ctx : Ctx) (prefs : Prefs) (url : String)
    (tree : Doc) (m : Metadata) (w : String)
    (hfetch : ctx.fetch url = some (tree, false))
    (hext : extract ctx prefs url tree = .ok m)
    (hbl : prefs.title_blacklist ≠ "")
    (hw : w ∈ blacklist_set prefs.title_blacklist)
    (hwt : w ∈ title_words m.title) :
    lookup_metadata ctx prefs url = .ok none := by
  have hcheck : check_title_blacklist prefs m.title ≠ [] := by
    rw [check_title_blacklist, if_neg hbl]
    intro hempty
    have hmem : w ∈ (blacklist_set prefs.title_blacklist).filter
        (fun w => decide (w ∈ title_words m.title)) :=
      List.mem_filter.mpr ⟨hw, by simpa using hwt⟩
    rw [hempty] at hmem
    simp at hmem
  unfold lookup_metadata get_webpage
  rw [hfetch]
  dsimp only
  rw [hext]
  dsimp only
  rw [if_pos hcheck]

/-- Witness for C9: the spec's own example — `title_blacklist =
"omnibus"`, candidate titled `The Great Omnibus, Vol. 1` — is rejected. -/
theorem blacklisted_title_rejected_witness :
    ctxOmnibus.fetch "u" = some (docOmnibus, false) ∧
    extract ctxOmnibus prefsOmnibus "u" docOmnibus = .ok recordOmnibus ∧
    prefsOmnibus.title_blacklist ≠ "" ∧
    "omnibus" ∈ blacklist_set prefsOmnibus.title_blacklist ∧
    "omnibus" ∈ title_words recordOmnibus.title ∧
    lookup_metadata ctxOmnibus prefsOmnibus "u" = .ok none :=
  ⟨rfl, rfl, by decide, by decide, by decide,
    blacklisted_title_rejected ctxOmnibus prefsOmnibus "u" docOmnibus
      recordOmnibus "omnibus" rfl rfl (by decide) (by decide) (by decide)⟩

/-! ## Claim C8 -/

theorem scanRows_append (step : ScanState → Row → Except PyErr ScanState)
    (st : ScanState) (xs ys : List Row) :
    scanRows step st (xs ++ ys) =
      match scanRows step st xs with
      | .ok st' => scanRows step st' ys
      | .error e => .error e := by
  induction xs generalizing st with
  | nil => rfl
  | cons r rs ih =>
    simp only [List.cons_append, scanRows]
    cases step st r with
    | ok st' => exact ih st'
    | error e => rfl

theorem outline_step_authors {ctx : Ctx} {tr : Translation} {tree : Doc}
    {st st' : ScanState} {r : Row}
    (h : outline_step ctx tr tree st r = .ok st') :
    st'.1.authors =
      if rowLabel r = some tr.Author2 then ctx.fixauthors r.tdAnchors
      else st.1.authors := by
  obtain ⟨m0, tags0⟩ := st
  unfold outline_step at h
  cases hl : rowLabel r with
  | none => rw [hl] at h; dsimp only at h; simp at h
  | some d =>
    rw [hl] at h
    simp only [Option.some.injEq]
    dsimp only at h
    split at h
    · simp at h
    · rename_i m' tags' heq
      have hm' : m'.authors = m0.authors := by
        split at heq
        · cases hh : r.tdAnchors.head? <;> rw [hh] at heq <;> dsimp only at heq
          · simp at heq
          · rename_i s
            cases hs : ctx.strptime s tr.format <;> rw [hs] at heq <;>
              dsimp only at heq
            · simp at heq
            · simp only [Except.ok.injEq, Prod.mk.injEq] at heq
              rw [← heq.1]
        · simp only [Except.ok.injEq, Prod.mk.injEq] at heq
          rw [← heq.1]
      by_cases hd : d = tr.Author2
      · rw [if_pos hd] at h
        rw [if_pos hd]
        simp only [Except.ok.injEq] at h
        rw [← h]
      · rw [if_neg hd] at h
        rw [if_neg hd]
        have hfinal : st'.1.authors = m'.authors := by
          split at h
          · cases hh : r.tdAnchors.head? <;> rw [hh] at h <;> dsimp only at h
            · simp at h
            · simp only [Except.ok.injEq] at h
              rw [← h]
          · split at h
            · cases hh : tree.iconEvtA.head? <;> rw [hh] at h <;> dsimp only at h
              · simp at h
              · simp only [Except.ok.injEq] at h
                rw [← h]
            · split at h
              · simp only [Except.ok.injEq] at h
                rw [← h]
              · simp only [Except.ok.injEq] at h
                rw [← h]
        rw [hfinal, hm']

theorem scan_outline_authors_preserved {ctx : Ctx} {tr : Translation}
    {tree : Doc} :
    ∀ (rows : List Row) (st st' : ScanState),
      scanRows (outline_step ctx tr tree) st rows = .ok st' →
      (∀ r ∈ rows, rowLabel r ≠ some tr.Author2) →
      st'.1.authors = st.1.authors := by
  intro rows
  induction rows with
  | nil =>
    intro st st' h _
    simp only [scanRows, Except.ok.injEq] at h
    rw [← h]
  | cons r rs ih =>
    intro st st' h hne
    simp only [scanRows] at h
    cases hstep : outline_step ctx tr tree st r with
    | error e => rw [hstep] at h; simp at h
    | ok stMid =>
      rw [hstep] at h
      have h1 := outline_step_authors hstep
      rw [if_neg (hne r (by simp))] at h1
      rw [ih stMid st' h (fun r' hr' => hne r' (by simp [hr']))]
      exact h1

/-- C8: when the outline table contains a row labelled with the locale's
`Author2` string (and no later `Author2` row follows it), and the maker
table contains a row labelled `Author1`, the record extracted from the
document carries the normalized author names of that `Author2` row: the
outline scan runs after the maker scan, and its authors write overwrites
the primary-author result (last-write-wins). -/
theorem author2_overwrites_author1 (ctx : Ctx) (prefs : Prefs) (url : String)
    (tree : Doc) (m : Metadata) (pre post : List Row) (r : Row)
    (hrows : tree.outlineRows = pre ++ r :: post)
    (hr : rowLabel r = some (TRANSLATIONS prefs.country).Author2)
    (hpost : ∀ r' ∈ post, rowLabel r' ≠ some (TRANSLATIONS prefs.country).Author2)
    (_hmaker : ∃ rm ∈ tree.makerRows,
      rowLabel rm = some (TRANSLATIONS prefs.country).Author1)
    (hok : extract ctx prefs url tree = .ok m) :
    m.authors = ctx.fixauthors r.tdAnchors := by
  unfold extract at hok
  cases hb : tree.breadcrumb.head? with
  | none => rw [hb] at hok; simp at hok
  | some rawTitle =>
    rw [hb] at hok
    dsimp only at hok
    cases h1 : scanRows (maker_step ctx (TRANSLATIONS prefs.country) tree)
        ({ title := pyStripS rawTitle,
           identifiers := [("dlsite", parse_product_id url)] }, [])
        tree.makerRows with
    | error e => rw [h1] at hok; simp at hok
    | ok st1 =>
      rw [h1] at hok
      dsimp only at hok
      cases h2 : scanRows (outline_step ctx (TRANSLATIONS prefs.country) tree)
          st1 tree.outlineRows with
      | error e => rw [h2] at hok; simp at hok
      | ok st2 =>
        rw [h2] at hok
        obtain ⟨m2, tags2⟩ := st2
        dsimp only at hok
        have hm2 : m.authors = m2.authors := by
          by_cases ht : tags2 ≠ [] <;>
            [rw [if_pos ht] at hok; rw [if_neg ht] at hok] <;>
            cases hs : tree.synopsisHtml <;> rw [hs] at hok <;>
            simp only [Except.ok.injEq] at hok <;> rw [← hok]
        -- decompose the outline scan at the Author2 row
        rw [hrows, scanRows_append] at h2
        cases hp : scanRows (outline_step ctx (TRANSLATIONS prefs.country) tree)
            st1 pre with
        | error e => rw [hp] at h2; simp at h2
        | ok stPre =>
          rw [hp] at h2
          dsimp only at h2
          simp only [scanRows] at h2
          cases hstep : outline_step ctx (TRANSLATIONS prefs.country) tree stPre r with
          | error e => rw [hstep] at h2; simp at h2
          | ok stR =>
            rw [hstep] at h2
            have hauth := outline_step_authors hstep
            rw [if_pos hr] at hauth
            have hpres := scan_outline_authors_preserved post stR (m2, tags2) h2 hpost
            rw [hm2]
            rw [show m2.authors = (m2, tags2).1.authors from rfl, hpres, hauth]

/-- Witness for C8: Japanese locale, maker row `著者` with author `A1`,
outline row `作者` with authors `B1`, `B2` — the extracted record's
authors are `["B1", "B2"]`. -/
theorem author2_overwrites_author1_witness :
    docTwoAuthors.outlineRows =
      [] ++ ({ th := some "作者", tdAnchors := ["B1", "B2"] } : Row) :: [] ∧
    extract ctxTwoAuthors prefsJa "u" docTwoAuthors = .ok recordTwoAuthors ∧
    recordTwoAuthors.authors = ctxTwoAuthors.fixauthors ["B1", "B2"] :=
  ⟨rfl, rfl,
    author2_overwrites_author1 ctxTwoAuthors prefsJa "u" docTwoAuthors
      recordTwoAuthors [] []
      ({ th := some "作者", tdAnchors := ["B1", "B2"] } : Row)
      rfl (by decide) (by simp)
      ⟨({ th := some "著者", tdAnchors := ["A1"] } : Row), by simp [docTwoAuthors],
        by decide⟩
      rfl⟩

/-! ## Claim C10 -/

theorem maker_step_publisher {ctx : Ctx} {tr : Translation} {tree : Doc}
    {st st' : ScanState} {r : Row}
    (h : maker_step ctx tr tree st r = .ok st') :
    st'.1.publisher = st.1.publisher ∨
      ∃ v, tree.spanA.head? = some v ∧ st'.1.publisher = some v := by
  obtain ⟨m0, tags0⟩ := st
  unfold maker_step at h
  cases hl : rowLabel r with
  | none => rw [hl] at h; dsimp only at h; simp at h
  | some d =>
    rw [hl] at h
    dsimp only at h
    split at h
    · left; simp only [Except.ok.injEq] at h; rw [← h]
    · split at h
      · cases hh : tree.spanA.head? <;> rw [hh] at h <;> dsimp only at h
        · simp at h
        · rename_i v'
          right
          refine ⟨v', rfl, ?_⟩
          simp only [Except.ok.injEq] at h
          rw [← h]
      · split at h
        · cases hh : tree.spanA.head? <;> rw [hh] at h <;> dsimp only at h
          · simp at h
          · left; simp only [Except.ok.injEq] at h; rw [← h]
        · split at h
          · cases hh : tree.spanA.head? <;> rw [hh] at h <;> dsimp only at h
            · simp at h
            · left; simp only [Except.ok.injEq] at h; rw [← h]
          · left; simp only [Except.ok.injEq] at h; rw [← h]

theorem maker_step_publisher_set {ctx : Ctx} {tr : Translation} {tree : Doc}
    {st st' : ScanState} {r : Row}
    (hr : rowLabel r = some tr.Publisher)
    (hne : tr.Publisher ≠ tr.Author1)
    (h : maker_step ctx tr tree st r = .ok st') :
    ∃ v, tree.spanA.head? = some v ∧ st'.1.publisher = some v := by
  obtain ⟨m0, tags0⟩ := st
  unfold maker_step at h
  rw [hr] at h
  dsimp only at h
  rw [if_neg hne, if_pos rfl] at h
  cases hh : tree.spanA.head? <;> rw [hh] at h <;> dsimp only at h
  · simp at h
  · rename_i v'
    refine ⟨v', rfl, ?_⟩
    simp only [Except.ok.injEq] at h
    rw [← h]

theorem maker_step_group {ctx : Ctx} {tr : Translation} {tree : Doc}
    {st st' : ScanState} {r : Row}
    (hr : rowLabel r = some tr.Circle)
    (hne1 : tr.Circle ≠ tr.Author1)
    (hne2 : tr.Circle ≠ tr.Publisher)
    (h : maker_step ctx tr tree st r = .ok st') :
    ∃ v, tree.spanA.head? = some v ∧ ("group." ++ v) ∈ st'.2 := by
  obtain ⟨m0, tags0⟩ := st
  unfold maker_step at h
  rw [hr] at h
  dsimp only at h
  rw [if_neg hne1, if_neg hne2, if_pos rfl] at h
  cases hh : tree.spanA.head? <;> rw [hh] at h <;> dsimp only at h
  · simp at h
  · rename_i v'
    refine ⟨v', rfl, ?_⟩
    simp only [Except.ok.injEq] at h
    rw [← h]
    simp

theorem maker_step_label {ctx : Ctx} {tr : Translation} {tree : Doc}
    {st st' : ScanState} {r : Row}
    (hr : rowLabel r = some tr.Label)
    (hne1 : tr.Label ≠ tr.Author1)
    (hne2 : tr.Label ≠ tr.Publisher)
    (hne3 : tr.Label ≠ tr.Circle)
    (h : maker_step ctx tr tree st r = .ok st') :
    ∃ v, tree.spanA.head? = some v ∧ ("label." ++ v) ∈ st'.2 := by
  obtain ⟨m0, tags0⟩ := st
  unfold maker_step at h
  rw [hr] at h
  dsimp only at h
  rw [if_neg hne1, if_neg hne2, if_neg hne3, if_pos rfl] at h
  cases hh : tree.spanA.head? <;> rw [hh] at h <;> dsimp only at h
  · simp at h
  · rename_i v'
    refine ⟨v', rfl, ?_⟩
    simp only [Except.ok.injEq] at h
    rw [← h]
    simp

theorem maker_step_tags_keep {ctx : Ctx} {tr : Translation} {tree : Doc}
    {st st' : ScanState} {r : Row} {x : String}
    (h : maker_step ctx tr tree st r = .ok st') (hx : x ∈ st.2) :
    x ∈ st'.2 := by
  obtain ⟨m0, tags0⟩ := st
  unfold maker_step at h
  cases hl : rowLabel r with
  | none => rw [hl] at h; dsimp only at h; simp at h
  | some d =>
    rw [hl] at h
    dsimp only at h
    split at h
    · simp only [Except.ok.injEq] at h; rw [← h]; exact hx
    · split at h
      · cases hh : tree.spanA.head? <;> rw [hh] at h <;> dsimp only at h
        · simp at h
        · simp only [Except.ok.injEq] at h; rw [← h]; exact hx
      · split at h
        · cases hh : tree.spanA.head? <;> rw [hh] at h <;> dsimp only at h
          · simp at h
          · simp only [Except.ok.injEq] at h; rw [← h]
            exact List.mem_append_left _ hx
        · split at h
          · cases hh : tree.spanA.head? <;> rw [hh] at h <;> dsimp only at h
            · simp at h
            · simp only [Except.ok.injEq] at h; rw [← h]
              exact List.mem_append_left _ hx
          · simp only [Except.ok.injEq] at h; rw [← h]; exact hx

theorem outline_step_tags_keep {ctx : Ctx} {tr : Translation} {tree : Doc}
    {st st' : ScanState} {r : Row} {x : String}
    (h : outline_step ctx tr tree st r = .ok st') (hx : x ∈ st.2) :
    x ∈ st'.2 := by
  obtain ⟨m0, tags0⟩ := st
  unfold outline_step at h
  cases hl : rowLabel r with
  | none => rw [hl] at h; dsimp only at h; simp at h
  | some d =>
    rw [hl] at h
    dsimp only at h
    split at h
    · simp at h
    · rename_i m' tags' heq
      have htags' : tags' = tags0 := by
        split at heq
        · cases hh : r.tdAnchors.head? <;> rw [hh] at heq <;> dsimp only at heq
          · simp at heq
          · rename_i s
            cases hs : ctx.strptime s tr.format <;> rw [hs] at heq <;>
              dsimp only at heq
            · simp at heq
            · simp only [Except.ok.injEq, Prod.mk.injEq] at heq
              rw [← heq.2]
        · simp only [Except.ok.injEq, Prod.mk.injEq] at heq
          rw [← heq.2]
      subst htags'
      split at h
      · simp only [Except.ok.injEq] at h; rw [← h]; exact hx
      · split at h
        · cases hh : r.tdAnchors.head? <;> rw [hh] at h <;> dsimp only at h
          · simp at h
          · simp only [Except.ok.injEq] at h; rw [← h]; exact hx
        · split at h
          · cases hh : tree.iconEvtA.head? <;> rw [hh] at h <;> dsimp only at h
            · simp at h
            · simp only [Except.ok.injEq] at h; rw [← h]
              exact List.mem_append_left _ hx
          · split at h
            · simp only [Except.ok.injEq] at h; rw [← h]
              exact List.mem_append_left _ hx
            · simp only [Except.ok.injEq] at h; rw [← h]; exact hx

theorem outline_step_publisher {ctx : Ctx} {tr : Translation} {tree : Doc}
    {st st' : ScanState} {r : Row}
    (h : outline_step ctx tr tree st r = .ok st') :
    st'.1.publisher = st.1.publisher := by
  obtain ⟨m0, tags0⟩ := st
  unfold outline_step at h
  cases hl : rowLabel r with
  | none => rw [hl] at h; dsimp only at h; simp at h
  | some d =>
    rw [hl] at h
    dsimp only at h
    split at h
    · simp at h
    · rename_i m' tags' heq
      have hm' : m'.publisher = m0.publisher := by
        split at heq
        · cases hh : r.tdAnchors.head? <;> rw [hh] at heq <;> dsimp only at heq
          · simp at heq
          · rename_i s
            cases hs : ctx.strptime s tr.format <;> rw [hs] at heq <;>
              dsimp only at heq
            · simp at heq
            · simp only [Except.ok.injEq, Prod.mk.injEq] at heq
              rw [← heq.1]
        · simp only [Except.ok.injEq, Prod.mk.injEq] at heq
          rw [← heq.1]
      have hfin : st'.1.publisher = m'.publisher := by
        split at h
        · simp only [Except.ok.injEq] at h; rw [← h]
        · split at h
          · cases hh : r.tdAnchors.head? <;> rw [hh] at h <;> dsimp only at h
            · simp at h
            · simp only [Except.ok.injEq] at h; rw [← h]
          · split at h
            · cases hh : tree.iconEvtA.head? <;> rw [hh] at h <;> dsimp only at h
              · simp at h
              · simp only [Except.ok.injEq] at h; rw [← h]
            · split at h
              · simp only [Except.ok.injEq] at h; rw [← h]
              · simp only [Except.ok.injEq] at h; rw [← h]
      rw [hfin, hm']

theorem scan_maker_publisher_keep {ctx : Ctx} {tr : Translation} {tree : Doc}
    {v : String} (hv : tree.spanA.head? = some v) :
    ∀ (rows : List Row) (st st' : ScanState),
      scanRows (maker_step ctx tr tree) st rows = .ok st' →
      st.1.publisher = some v → st'.1.publisher = some v := by
  intro rows
  induction rows with
  | nil =>
    intro st st' h hp
    simp only [scanRows, Except.ok.injEq] at h
    rw [← h]; exact hp
  | cons r rs ih =>
    intro st st' h hp
    simp only [scanRows] at h
    cases hstep : maker_step ctx tr tree st r with
    | error e => rw [hstep] at h; simp at h
    | ok stMid =>
      rw [hstep] at h
      refine ih stMid st' h ?_
      rcases maker_step_publisher hstep with hkeep | ⟨v', hv', hset⟩
      · rw [hkeep]; exact hp
      · rw [hset]
        rw [hv] at hv'
        exact (Option.some.inj hv') ▸ rfl

theorem scan_maker_tags_keep {ctx : Ctx} {tr : Translation} {tree : Doc}
    {x : String} :
    ∀ (rows : List Row) (st st' : ScanState),
      scanRows (maker_step ctx tr tree) st rows = .ok st' →
      x ∈ st.2 → x ∈ st'.2 := by
  intro rows
  induction rows with
  | nil =>
    intro st st' h hx
    simp only [scanRows, Except.ok.injEq] at h
    rw [← h]; exact hx
  | cons r rs ih =>
    intro st st' h hx
    simp only [scanRows] at h
    cases hstep : maker_step ctx tr tree st r with
    | error e => rw [hstep] at h; simp at h
    | ok stMid =>
      rw [hstep] at h
      exact ih stMid st' h (maker_step_tags_keep hstep hx)

theorem scan_outline_tags_keep {ctx : Ctx} {tr : Translation} {tree : Doc}
    {x : String} :
    ∀ (rows : List Row) (st st' : ScanState),
      scanRows (outline_step ctx tr tree) st rows = .ok st' →
      x ∈ st.2 → x ∈ st'.2 := by
  intro rows
  induction rows with
  | nil =>
    intro st st' h hx
    simp only [scanRows, Except.ok.injEq] at h
    rw [← h]; exact hx
  | cons r rs ih =>
    intro st st' h hx
    simp only [scanRows] at h
    cases hstep : outline_step ctx tr tree st r with
    | error e => rw [hstep] at h; simp at h
    | ok stMid =>
      rw [hstep] at h
      exact ih stMid st' h (outline_step_tags_keep hstep hx)

theorem scan_outline_publisher_keep {ctx : Ctx} {tr : Translation} {tree : Doc} :
    ∀ (rows : List Row) (st st' : ScanState),
      scanRows (outline_step ctx tr tree) st rows = .ok st' →
      st'.1.publisher = st.1.publisher := by
  intro rows
  induction rows with
  | nil =>
    intro st st' h
    simp only [scanRows, Except.ok.injEq] at h
    rw [← h]
  | cons r rs ih =>
    intro st st' h
    simp only [scanRows] at h
    cases hstep : outline_step ctx tr tree st r with
    | error e => rw [hstep] at h; simp at h
    | ok stMid =>
      rw [hstep] at h
      rw [ih stMid st' h, outline_step_publisher hstep]

theorem scan_maker_publisher_of_row {ctx : Ctx} {tr : Translation} {tree : Doc}
    {v : String} (hv : tree.spanA.head? = some v) :
    ∀ (rows : List Row) (st st' : ScanState),
      scanRows (maker_step ctx tr tree) st rows = .ok st' →
      (∃ r ∈ rows, rowLabel r = some tr.Publisher ∧ tr.Publisher ≠ tr.Author1) →
      st'.1.publisher = some v := by
  intro rows
  induction rows with
  | nil =>
    intro st st' _ hex
    simp at hex
  | cons r rs ih =>
    intro st st' h hex
    simp only [scanRows] at h
    cases hstep : maker_step ctx tr tree st r with
    | error e => rw [hstep] at h; simp at h
    | ok stMid =>
      rw [hstep] at h
      obtain ⟨r', hr', hlab, hne⟩ := hex
      rcases List.mem_cons.mp hr' with rfl | hmem
      · obtain ⟨v', hv', hset⟩ := maker_step_publisher_set hlab hne hstep
        rw [hv] at hv'
        exact scan_maker_publisher_keep hv rs stMid st' h
          (by rw [hset, Option.some.inj hv'])
      · exact ih stMid st' h ⟨r', hmem, hlab, hne⟩

theorem scan_maker_group_of_row {ctx : Ctx} {tr : Translation} {tree : Doc}
    {v : String} (hv : tree.spanA.head? = some v) :
    ∀ (rows : List Row) (st st' : ScanState),
      scanRows (maker_step ctx tr tree) st rows = .ok st' →
      (∃ r ∈ rows, rowLabel r = some tr.Circle ∧ tr.Circle ≠ tr.Author1 ∧
        tr.Circle ≠ tr.Publisher) →
      ("group." ++ v) ∈ st'.2 := by
  intro rows
  induction rows with
  | nil =>
    intro st st' _ hex
    simp at hex
  | cons r rs ih =>
    intro st st' h hex
    simp only [scanRows] at h
    cases hstep : maker_step ctx tr tree st r with
    | error e => rw [hstep] at h; simp at h
    | ok stMid =>
      rw [hstep] at h
      obtain ⟨r', hr', hlab, hne1, hne2⟩ := hex
      rcases List.mem_cons.mp hr' with rfl | hmem
      · obtain ⟨v', hv', hmemtag⟩ := maker_step_group hlab hne1 hne2 hstep
        rw [hv] at hv'
        rw [← Option.some.inj hv'] at hmemtag
        exact scan_maker_tags_keep rs stMid st' h hmemtag
      · exact ih stMid st' h ⟨r', hmem, hlab, hne1, hne2⟩

theorem scan_maker_label_of_row {ctx : Ctx} {tr : Translation} {tree : Doc}
    {v : String} (hv : tree.spanA.head? = some v) :
    ∀ (rows : List Row) (st st' : ScanState),
      scanRows (maker_step ctx tr tree) st rows = .ok st' →
      (∃ r ∈ rows, rowLabel r = some tr.Label ∧ tr.Label ≠ tr.Author1 ∧
        tr.Label ≠ tr.Publisher ∧ tr.Label ≠ tr.Circle) →
      ("label." ++ v) ∈ st'.2 := by
  intro rows
  induction rows with
  | nil =>
    intro st st' _ hex
    simp at hex
  | cons r rs ih =>
    intro st st' h hex
    simp only [scanRows] at h
    cases hstep : maker_step ctx tr tree st r with
    | error e => rw [hstep] at h; simp at h
    | ok stMid =>
      rw [hstep] at h
      obtain ⟨r', hr', hlab, hne1, hne2, hne3⟩ := hex
      rcases List.mem_cons.mp hr' with rfl | hmem
      · obtain ⟨v', hv', hmemtag⟩ := maker_step_label hlab hne1 hne2 hne3 hstep
        rw [hv] at hv'
        rw [← Option.some.inj hv'] at hmemtag
        exact scan_maker_tags_keep rs stMid st' h hmemtag
      · exact ih stMid st' h ⟨r', hmem, hlab, hne1, hne2, hne3⟩

/-- C10: the `Publisher`, `Circle` and `Label` branches of the maker-table
scan all read `x.xpath("//span/a")[0]` — a document-global query, not one
scoped to the matched row — so when rows matching all three labels are
present (each reached by its own branch of the `elif` chain), the
extracted record's publisher, its `group.` tag and its `label.` tag all
carry the same value: the text of the first anchor inside a span anywhere
in the document. -/
theorem maker_fields_use_document_global_span (ctx : Ctx) (prefs : Prefs)
    (url : String) (tree : Doc) (m : Metadata) (v : String)
    (hv : tree.spanA.head? = some v)
    (hpub : ∃ r ∈ tree.makerRows,
      rowLabel r = some (TRANSLATIONS prefs.country).Publisher ∧
      (TRANSLATIONS prefs.country).Publisher ≠ (TRANSLATIONS prefs.country).Author1)
    (hcir : ∃ r ∈ tree.makerRows,
      rowLabel r = some (TRANSLATIONS prefs.country).Circle ∧
      (TRANSLATIONS prefs.country).Circle ≠ (TRANSLATIONS prefs.country).Author1 ∧
      (TRANSLATIONS prefs.country).Circle ≠ (TRANSLATIONS prefs.country).Publisher)
    (hlab : ∃ r ∈ tree.makerRows,
      rowLabel r = some (TRANSLATIONS prefs.country).Label ∧
      (TRANSLATIONS prefs.country).Label ≠ (TRANSLATIONS prefs.country).Author1 ∧
      (TRANSLATIONS prefs.country).Label ≠ (TRANSLATIONS prefs.country).Publisher ∧
      (TRANSLATIONS prefs.country).Label ≠ (TRANSLATIONS prefs.country).Circle)
    (hok : extract ctx prefs url tree = .ok m) :
    m.publisher = some v ∧
    pyReplaceS "," " " ("group." ++ v) ∈ m.tags ∧
    pyReplaceS "," " " ("label." ++ v) ∈ m.tags := by
  unfold extract at hok
  cases hb : tree.breadcrumb.head? with
  | none => rw [hb] at hok; simp at hok
  | some rawTitle =>
    rw [hb] at hok
    dsimp only at hok
    cases h1 : scanRows (maker_step ctx (TRANSLATIONS prefs.country) tree)
        ({ title := pyStripS rawTitle,
           identifiers := [("dlsite", parse_product_id url)] }, [])
        tree.makerRows with
    | error e => rw [h1] at hok; simp at hok
    | ok st1 =>
      rw [h1] at hok
      dsimp only at hok
      cases h2 : scanRows (outline_step ctx (TRANSLATIONS prefs.country) tree)
          st1 tree.outlineRows with
      | error e => rw [h2] at hok; simp at hok
      | ok st2 =>
        rw [h2] at hok
        obtain ⟨m2, tags2⟩ := st2
        dsimp only at hok
        have hpub1 : st1.1.publisher = some v :=
          scan_maker_publisher_of_row hv tree.makerRows _ st1 h1 hpub
        have hgrp1 : ("group." ++ v) ∈ st1.2 :=
          scan_maker_group_of_row hv tree.makerRows _ st1 h1 hcir
        have hlbl1 : ("label." ++ v) ∈ st1.2 :=
          scan_maker_label_of_row hv tree.makerRows _ st1 h1 hlab
        have hpub2 : m2.publisher = some v := by
          have := scan_outline_publisher_keep tree.outlineRows st1 (m2, tags2) h2
          rw [show m2.publisher = (m2, tags2).1.publisher from rfl, this, hpub1]
        have hgrp2 : ("group." ++ v) ∈ tags2 :=
          scan_outline_tags_keep tree.outlineRows st1 (m2, tags2) h2 hgrp1
        have hlbl2 : ("label." ++ v) ∈ tags2 :=
          scan_outline_tags_keep tree.outlineRows st1 (m2, tags2) h2 hlbl1
        have hne : tags2 ≠ [] := List.ne_nil_of_mem hgrp2
        rw [if_pos hne] at hok
        cases hs : tree.synopsisHtml <;> rw [hs] at hok <;>
          simp only [Except.ok.injEq] at hok <;> rw [← hok] <;>
          exact ⟨hpub2, List.mem_map_of_mem _ hgrp2, List.mem_map_of_mem _ hlbl2⟩

/-- Witness for C10: Japanese locale, rows `出版社名`, `サークル名`,
`レーベル`, document-global span anchor `CX`. -/
theorem maker_fields_use_document_global_span_witness :
    docMakerGlobal.spanA.head? = some "CX" ∧
    extract ctxMakerGlobal prefsJa "u" docMakerGlobal =
      .ok { title := "T", publisher := some "CX",
            tags := ["group.CX", "label.CX"],
            identifiers := [("dlsite", "u")] } ∧
    (some "CX" = some "CX" ∧
      pyReplaceS "," " " ("group." ++ "CX") ∈ ["group.CX", "label.CX"] ∧
      pyReplaceS "," " " ("label." ++ "CX") ∈ ["group.CX", "label.CX"]) := by
  refine ⟨rfl, rfl, ?_⟩
  have := maker_fields_use_document_global_span ctxMakerGlobal prefsJa "u"
    docMakerGlobal
    { title := "T", publisher := some "CX",
      tags := ["group.CX", "label.CX"], identifiers := [("dlsite", "u")] }
    "CX" rfl
    ⟨({ th := some "出版社名" } : Row), by simp [docMakerGlobal], by decide⟩
    ⟨({ th := some "サークル名" } : Row), by simp [docMakerGlobal], by decide⟩
    ⟨({ th := some "レーベル" } : Row), by simp [docMakerGlobal], by decide⟩
    rfl
  exact this

end DLsite
